import Mathlib

/-!
Verification of the data-preparation utilities of the musicgr repository
(src/utilities.py and src/evaluation_utilities.py).

Strings are embedded as lists of characters.  The filesystem is an abstract
predicate on paths; the audio loading function and the mel-spectrogram
feature extractor of the librosa library are abstract function parameters,
since the repository only delegates to them.  Fallible code returns Except.
-/

/-- Strings of the Python program, embedded as lists of characters. -/
abbrev Str := List Char

/-- The tail component of os.path.split, i.e. everything after the last
slash of the path (the whole path when it has no slash). -/
def split_tail (p : Str) : Str :=
  (p.reverse.takeWhile (fun c => c ≠ '/')).reverse

/-- id_from_path (src/utilities.py, lines 26-30):
returns os.path.split(mp3_path)[1][:-4].  The Python slice [:-4] keeps the
first (length - 4) characters, clamped at zero, which Nat subtraction gives
directly. -/
def id_from_path (mp3_path : Str) : Str :=
  (split_tail mp3_path).take ((split_tail mp3_path).length - 4)

/-- os.path.join for two components, with POSIX semantics: an absolute
second component replaces the first; otherwise a slash separates them
unless the first is empty or already ends in a slash. -/
def os_path_join (a b : Str) : Str :=
  if b.head? = some '/' then b
  else if a = [] ∨ a.getLast? = some '/' then a ++ b
  else a ++ '/' :: b

/-- The melspec_path local of mp3_to_mel_path:
os.path.join(melspec_dir, id_from_path(mp3_path) + ".npz"). -/
def melTarget (mp3_path melspec_dir : Str) : Str :=
  os_path_join melspec_dir (id_from_path mp3_path ++ ".npz".toList)

/-- mp3_to_mel_path (src/utilities.py, lines 42-55): builds
melspec_dir/<track id>.npz and returns it when it exists on the
filesystem fs, raising FileNotFoundError (the error branch) otherwise. -/
def mp3_to_mel_path (fs : Str → Bool) (mp3_path melspec_dir : Str) :
    Except Str Str :=
  if fs (melTarget mp3_path melspec_dir) then
    Except.ok (melTarget mp3_path melspec_dir)
  else Except.error
    ("Did not find a melspectrogram with id ".toList ++ id_from_path mp3_path)

/-- C4: mp3_to_mel_path raises FileNotFoundError if and only if the
constructed spectrogram file melspec_dir/<track id>.npz does not exist;
when that file exists it returns its path and raises nothing. -/
theorem mp3_to_mel_path_error_iff_missing (fs : Str → Bool) (p dir : Str) :
    melTarget p dir = os_path_join dir (id_from_path p ++ ".npz".toList) ∧
    ((∃ e, mp3_to_mel_path fs p dir = Except.error e) ↔ fs (melTarget p dir) = false) ∧
    (fs (melTarget p dir) = true →
      mp3_to_mel_path fs p dir = Except.ok (melTarget p dir)) := by
  refine ⟨rfl, ?_, ?_⟩ <;>
    cases h : fs (melTarget p dir) <;> simp [mp3_to_mel_path, h]

/-- C4 witness: with an empty filesystem the error branch is taken, at a
concrete path and directory. -/
theorem mp3_to_mel_path_error_iff_missing_witness :
    (fun _ => false : Str → Bool) (melTarget "a/b.mp3".toList "mel".toList) = false ∧
    ∃ e, mp3_to_mel_path (fun _ => false) "a/b.mp3".toList "mel".toList = Except.error e := by
  refine ⟨rfl, ?_⟩
  exact ((mp3_to_mel_path_error_iff_missing (fun _ => false) "a/b.mp3".toList
    "mel".toList).2.1).mpr rfl

/-- C5: id_from_path returns the basename of the path with its last four
characters removed, and every path mp3_to_mel_path returns is melspec_dir
joined with that track id followed by the ".npz" extension. -/
theorem id_from_path_drops_extension (fs : Str → Bool) (p dir : Str) :
    id_from_path p = ((split_tail p).reverse.drop 4).reverse ∧
    (∀ q, mp3_to_mel_path fs p dir = Except.ok q →
      q = os_path_join dir (id_from_path p ++ ".npz".toList)) := by
  constructor
  · rw [List.drop_reverse, List.reverse_reverse]
    rfl
  · intro q hq
    by_cases h : fs (melTarget p dir)
    · have : mp3_to_mel_path fs p dir = Except.ok (melTarget p dir) := by
        simp [mp3_to_mel_path, h]
      rw [this] at hq
      injection hq with h2
      exact h2.symm
    · simp [mp3_to_mel_path, h] at hq

/-- C5 witness: evaluated at a concrete path. -/
theorem id_from_path_drops_extension_witness :
    mp3_to_mel_path (fun _ => true) "music/1234.mp3".toList "mel".toList =
        Except.ok "mel/1234.npz".toList ∧
    "mel/1234.npz".toList =
      os_path_join "mel".toList (id_from_path "music/1234.mp3".toList ++ ".npz".toList) := by
  refine ⟨rfl, ?_⟩
  exact (id_from_path_drops_extension (fun _ => true) "music/1234.mp3".toList
    "mel".toList).2 "mel/1234.npz".toList rfl

/-!
Dataframe model.  A row of the metadata dataframe built by
read_metadata_file has columns track_id, genre, mp3_path.
attach_onehot_encoding appends the dummy columns of pd.get_dummies,
one per distinct genre; a dummy cell holds 1 when the row has that genre
and 0 otherwise.  Dummy columns are kept as an association list keyed by
genre name, so the alphabetical column order pandas uses is immaterial.
-/

/-- A row of the metadata dataframe: columns track_id, genre, mp3_path. -/
structure MRow where
  track_id : Nat
  genre : Str
  mp3_path : Str
deriving DecidableEq, Repr

/-- A row of the metadata table parsed from the CSV file, restricted to
the cells read_metadata_file consults: the index (track id), the
column with label pair set and subset, and the column with label pair
track and genre_top. -/
structure MetaRecord where
  track_id : Nat
  set_subset : Str
  track_genre_top : Str
deriving DecidableEq, Repr

/-- The df local of read_metadata_file before the bad-path drop: rows
whose subset cell is small, keeping the genre_top column, the index reset
into the track_id column, zipped positionally with all_filepaths as the
mp3_path column. -/
def metaZip (all_metadata : List MetaRecord) (all_filepaths : List Str) : List MRow :=
  List.zipWith (fun r p => MRow.mk r.track_id r.track_genre_top p)
    (all_metadata.filter (fun r => r.set_subset = "small".toList)) all_filepaths

/-- read_metadata_file (src/utilities.py, lines 57-83) on the parsed CSV
table: build metaZip (pandas raises ValueError unless the length of
all_filepaths matches the number of kept rows), then drop every row whose
mp3_path occurs in bad_filepaths; the source guards the drop behind a
non-zero match count, which leaves the no-match case unchanged. -/
def read_metadata_file (all_metadata : List MetaRecord)
    (all_filepaths bad_filepaths : List Str) : Except Str (List MRow) :=
  if (all_metadata.filter (fun r => r.set_subset = "small".toList)).length
      = all_filepaths.length then
    if ((metaZip all_metadata all_filepaths).filter
        (fun r => bad_filepaths.contains r.mp3_path)).length ≠ 0 then
      Except.ok ((metaZip all_metadata all_filepaths).filter
        (fun r => ¬ bad_filepaths.contains r.mp3_path))
    else
      Except.ok (metaZip all_metadata all_filepaths)
  else
    Except.error "Length of values does not match length of index".toList

/-- Helper for pdUnique: keep the elements not seen yet, threading the
set of values already emitted. -/
def pdUniqueAux {α : Type} [DecidableEq α] : List α → List α → List α
  | [], _ => []
  | x :: xs, seen =>
    if x ∈ seen then pdUniqueAux xs seen else x :: pdUniqueAux xs (x :: seen)

/-- pandas Series.unique: the distinct values in order of first
appearance. -/
def pdUnique {α : Type} [DecidableEq α] (l : List α) : List α :=
  pdUniqueAux l []

/-- A row of the dataframe produced by attach_onehot_encoding: the
original row followed by the dummy columns, an association list from
genre name to the 0/1 dummy value. -/
structure ARow where
  base : MRow
  dummies : List (Str × Nat)
deriving DecidableEq, Repr

/-- attach_onehot_encoding (src/utilities.py, lines 32-40):
pd.concat([df, pd.get_dummies(df.genre)], axis=1).  The column_name
argument is accepted but never used by the body, which always encodes the
genre column. -/
def attach_onehot_encoding (df : List MRow) (column_name : Str) : List ARow :=
  df.map (fun r =>
    ARow.mk r ((pdUnique (df.map (fun s => s.genre))).map
      (fun g => (g, if r.genre = g then 1 else 0))))

/-- C7: read_metadata_file keeps exactly the rows whose set-subset cell is
small with only their genre_top column, pairs them positionally with
all_filepaths into rows (track_id, genre, mp3_path), and the returned
dataframe contains no row whose mp3_path is a member of bad_filepaths. -/
theorem read_metadata_file_spec (all_metadata : List MetaRecord)
    (all_filepaths bad_filepaths : List Str)
    (h : (all_metadata.filter (fun r => r.set_subset = "small".toList)).length
          = all_filepaths.length) :
    read_metadata_file all_metadata all_filepaths bad_filepaths =
      Except.ok ((metaZip all_metadata all_filepaths).filter
        (fun r => ¬ bad_filepaths.contains r.mp3_path)) ∧
    ∀ df, read_metadata_file all_metadata all_filepaths bad_filepaths = Except.ok df →
      ∀ r ∈ df, r.mp3_path ∉ bad_filepaths := by
  have hmain : read_metadata_file all_metadata all_filepaths bad_filepaths =
      Except.ok ((metaZip all_metadata all_filepaths).filter
        (fun r => ¬ bad_filepaths.contains r.mp3_path)) := by
    unfold read_metadata_file
    rw [if_pos h]
    by_cases hbad : (((metaZip all_metadata all_filepaths).filter
        (fun r => bad_filepaths.contains r.mp3_path)).length ≠ 0)
    · rw [if_pos hbad]
    · rw [if_neg hbad]
      have hnil : ((metaZip all_metadata all_filepaths).filter
          (fun r => bad_filepaths.contains r.mp3_path)) = [] := by
        rw [← List.length_eq_zero]
        omega
      have hall : ∀ r ∈ metaZip all_metadata all_filepaths,
          ¬ bad_filepaths.contains r.mp3_path := by
        intro r hr
        intro hc
        have : r ∈ ((metaZip all_metadata all_filepaths).filter
            (fun r => bad_filepaths.contains r.mp3_path)) :=
          List.mem_filter.mpr ⟨hr, by simpa using hc⟩
        rw [hnil] at this
        exact List.not_mem_nil r this
      rw [List.filter_eq_self.mpr (fun r hr => by simpa using hall r hr)]
  refine ⟨hmain, ?_⟩
  intro df hdf r hr
  rw [hmain] at hdf
  injection hdf with hdf
  subst hdf
  have := (List.mem_filter.mp hr).2
  simp only [decide_eq_true_eq, List.contains_eq_any_beq, List.any_eq_true,
    beq_iff_eq] at this
  intro hmem
  exact this ⟨r.mp3_path, hmem, rfl⟩

/-- C7 witness: a two-record table, one record in the small subset, one
bad path filtered out of a two-path assignment would not apply here; at
this input the kept rows and paths align and the bad list is empty. -/
theorem read_metadata_file_spec_witness :
    ((([MetaRecord.mk 2 "small".toList "Rock".toList,
        MetaRecord.mk 3 "large".toList "Pop".toList]).filter
          (fun r => r.set_subset = "small".toList)).length = ["a.mp3".toList].length) ∧
    read_metadata_file
        [MetaRecord.mk 2 "small".toList "Rock".toList,
         MetaRecord.mk 3 "large".toList "Pop".toList]
        ["a.mp3".toList] [] =
      Except.ok ((metaZip
        [MetaRecord.mk 2 "small".toList "Rock".toList,
         MetaRecord.mk 3 "large".toList "Pop".toList]
        ["a.mp3".toList]).filter (fun r => ¬ ([] : List Str).contains r.mp3_path)) := by
  refine ⟨by decide, ?_⟩
  exact (read_metadata_file_spec
    [MetaRecord.mk 2 "small".toList "Rock".toList,
     MetaRecord.mk 3 "large".toList "Pop".toList]
    ["a.mp3".toList] [] (by decide)).1

/-- C8: attach_onehot_encoding ignores its column_name argument: any two
column names give equal results, and the original columns of every row
are unchanged. -/
theorem attach_onehot_encoding_ignores_column_name (df : List MRow) (c1 c2 : Str) :
    attach_onehot_encoding df c1 = attach_onehot_encoding df c2 ∧
    (attach_onehot_encoding df c1).map (fun r => r.base) = df := by
  refine ⟨rfl, ?_⟩
  unfold attach_onehot_encoding
  rw [List.map_map]
  exact List.map_id df

/-!
Batch generator model.  A mel-spectrogram is a matrix given by its two
dimensions and an entry function; the stacked batch is a 3-D array given
by its three dimensions and an entry function.  The librosa functions
load (of file path, sample rate, duration) and melspectrogram (of source
signal, sample rate) are abstract parameters.
-/

/-- A 2-D numpy array (a mel-spectrogram): shape and entries. -/
structure Mat where
  rows : Nat
  cols : Nat
  entry : Nat → Nat → ℚ

/-- A 3-D numpy array (a stacked batch of spectrograms): shape and
entries. -/
structure Arr3 where
  dim0 : Nat
  dim1 : Nat
  dim2 : Nat
  entry : Nat → Nat → Nat → ℚ

/-- Python max over a list of naturals (total here; the empty case, on
which Python raises ValueError, is guarded at the call site). -/
def maxList (l : List Nat) : Nat :=
  l.foldl max 0

/-- The assignment stacked_arr[i, :m.rows, :m.cols] = m on the entry
function of the stacked array. -/
def assignSlice (a : Nat → Nat → Nat → ℚ) (i : Nat) (m : Mat) :
    Nat → Nat → Nat → ℚ :=
  fun j r c => if j = i ∧ r < m.rows ∧ c < m.cols then m.entry r c else a j r c

/-- The loop for i in range(len(filepath_list)) of _stack_melspecs,
assigning each spectrogram into its slice in turn, starting at index i. -/
def fillFrom (i : Nat) : List Mat → (Nat → Nat → Nat → ℚ) → (Nat → Nat → Nat → ℚ)
  | [], a => a
  | m :: ms, a => fillFrom (i + 1) ms (assignSlice a i m)

/-- Batch_generator state (src/utilities.py, lines 92-97): the fields
stored by the constructor. -/
structure Batch_generator where
  mp3_paths : List Str
  labels : List (List Nat)
  batch_size : Nat
  sr : Nat
  duration : Nat

/-- Batch_generator.__len__ (src/utilities.py, lines 99-103):
np.ceil(len(self.mp3_paths) / float(self.batch_size)) cast to int. -/
def bgLen (g : Batch_generator) : Nat :=
  (Int.ceil ((g.mp3_paths.length : ℚ) / (g.batch_size : ℚ))).toNat

/-- The Python list slice l[a:b] for 0 <= a <= b. -/
def listSlice {α : Type} (l : List α) (a b : Nat) : List α :=
  (l.drop a).take (b - a)

/-- The per-file mel-spectrograms of _stack_melspecs:
melspectrogram(load(file, sr=self.sr, duration=self.sr)[0], sr=self.sr)
for each file of the list.  Note the source passes self.sr, not
self.duration, as the duration argument of load. -/
def melsOf (loadFn : Str → Nat → Nat → List ℚ) (melFn : List ℚ → Nat → Mat)
    (g : Batch_generator) (filepath_list : List Str) : List Mat :=
  (filepath_list.map (fun file => loadFn file g.sr g.sr)).map
    (fun src => melFn src g.sr)

/-- Batch_generator._stack_melspecs (src/utilities.py, lines 112-138):
allocate a zero array of shape (len(filepath_list), max row count,
max column count) and copy each spectrogram into its slice.  On an empty
file list the two max() calls raise ValueError, modelled as the error
branch. -/
def stackMelspecs (loadFn : Str → Nat → Nat → List ℚ) (melFn : List ℚ → Nat → Mat)
    (g : Batch_generator) (filepath_list : List Str) : Except Str Arr3 :=
  if (melsOf loadFn melFn g filepath_list).isEmpty then
    Except.error "max() arg is an empty sequence".toList
  else
    Except.ok
      { dim0 := filepath_list.length
        dim1 := maxList ((melsOf loadFn melFn g filepath_list).map (fun m => m.rows))
        dim2 := maxList ((melsOf loadFn melFn g filepath_list).map (fun m => m.cols))
        entry := fillFrom 0 (melsOf loadFn melFn g filepath_list) (fun _ _ _ => 0) }

/-- Batch_generator.__getitem__ (src/utilities.py, lines 105-110):
slice the paths and the label rows at [idx * batch_size :
(idx + 1) * batch_size] and stack the spectrograms of the path slice. -/
def bgGetitem (loadFn : Str → Nat → Nat → List ℚ) (melFn : List ℚ → Nat → Mat)
    (g : Batch_generator) (idx : Nat) : Except Str Arr3 × List (List Nat) :=
  (stackMelspecs loadFn melFn g
      (listSlice g.mp3_paths (idx * g.batch_size) ((idx + 1) * g.batch_size)),
    listSlice g.labels (idx * g.batch_size) ((idx + 1) * g.batch_size))

/-- The labels matrix the constructor extracts from a dataframe produced
by attach_onehot_encoding: meta_df.loc[:, meta_df.genre.unique()]
.to_numpy(), i.e. for every row the dummy cells at the distinct genres of
the dataframe, in order of first appearance. -/
def bgLabels (df : List ARow) : List (List Nat) :=
  df.map (fun r =>
    (pdUnique (df.map (fun s => s.base.genre))).map
      (fun u => ((r.dummies.lookup u).getD 0)))

/-- Batch_generator.__init__ (src/utilities.py, lines 92-97) on a
dataframe with attached one-hot columns. -/
def mkBatchGenerator (df : List ARow) (batch_size sr duration : Nat) :
    Batch_generator :=
  { mp3_paths := df.map (fun r => r.base.mp3_path)
    labels := bgLabels df
    batch_size := batch_size
    sr := sr
    duration := duration }

/-- The default matrix used to state positional access into a list of
spectrograms. -/
def dMat : Mat := { rows := 0, cols := 0, entry := fun _ _ => 0 }

theorem le_foldl_max (l : List Nat) : ∀ init : Nat, init ≤ l.foldl max init := by
  induction l with
  | nil => intro init; exact Nat.le_refl init
  | cons a t ih =>
    intro init
    exact le_trans (Nat.le_max_left init a) (ih (max init a))

theorem mem_le_foldl_max (l : List Nat) :
    ∀ (init x : Nat), x ∈ l → x ≤ l.foldl max init := by
  induction l with
  | nil => intro _ x hx; cases hx
  | cons a t ih =>
    intro init x hx
    rcases List.mem_cons.mp hx with rfl | hx
    · exact le_trans (Nat.le_max_right init x) (le_foldl_max t (max init x))
    · exact ih (max init a) x hx

theorem le_maxList {l : List Nat} {x : Nat} (hx : x ∈ l) : x ≤ maxList l :=
  mem_le_foldl_max l 0 x hx

theorem foldl_max_mem (l : List Nat) :
    ∀ init : Nat, l.foldl max init = init ∨ l.foldl max init ∈ l := by
  induction l with
  | nil => intro init; exact Or.inl rfl
  | cons a t ih =>
    intro init
    rcases ih (max init a) with h | h
    · rw [List.foldl_cons, h]
      rcases max_choice init a with hm | hm
      · rw [hm]; exact Or.inl rfl
      · rw [hm]; exact Or.inr (List.mem_cons_self a t)
    · exact Or.inr (List.mem_cons_of_mem a h)

theorem maxList_mem {l : List Nat} (hl : l ≠ []) : maxList l ∈ l := by
  rcases foldl_max_mem l 0 with h | h
  · cases l with
    | nil => exact absurd rfl hl
    | cons a t =>
      have ha : a ≤ maxList (a :: t) := le_maxList (List.mem_cons_self a t)
      unfold maxList at *
      rw [h] at ha ⊢
      have : a = 0 := Nat.le_zero.mp ha
      rw [← this]
      exact List.mem_cons_self a t
  · exact h

theorem fillFrom_eq (ms : List Mat) :
    ∀ (i : Nat) (a : Nat → Nat → Nat → ℚ) (j r c : Nat),
      fillFrom i ms a j r c =
        if i ≤ j ∧ j - i < ms.length ∧ r < (ms.getD (j - i) dMat).rows ∧
            c < (ms.getD (j - i) dMat).cols
        then (ms.getD (j - i) dMat).entry r c
        else a j r c := by
  induction ms with
  | nil =>
    intro i a j r c
    rw [fillFrom, if_neg]
    rintro ⟨-, h2, -, -⟩
    simp at h2
  | cons m ms ih =>
    intro i a j r c
    rw [fillFrom, ih]
    rcases Nat.lt_trichotomy j i with hj | hj | hj
    · rw [if_neg (fun hh => absurd hh.1 (by omega)),
        if_neg (fun hh => absurd hh.1 (by omega))]
      unfold assignSlice
      rw [if_neg (fun hh => absurd hh.1 (by omega))]
    · subst hj
      rw [if_neg (fun hh => absurd hh.1 (by omega))]
      unfold assignSlice
      have hz : j - j = 0 := by omega
      rw [hz, List.getD_cons_zero]
      by_cases hrc : r < m.rows ∧ c < m.cols
      · rw [if_pos ⟨rfl, hrc.1, hrc.2⟩,
          if_pos ⟨Nat.le_refl j, by simp, hrc.1, hrc.2⟩]
      · rw [if_neg (fun hh => hrc ⟨hh.2.1, hh.2.2⟩),
          if_neg (fun hh => hrc ⟨hh.2.2.1, hh.2.2.2⟩)]
    · have hs : j - i = (j - (i + 1)) + 1 := by omega
      rw [hs, List.getD_cons_succ]
      by_cases hC : i + 1 ≤ j ∧ j - (i + 1) < ms.length ∧
          r < (ms.getD (j - (i + 1)) dMat).rows ∧
          c < (ms.getD (j - (i + 1)) dMat).cols
      · rw [if_pos hC, if_pos ⟨by omega, by
          have := hC.2.1
          simp only [List.length_cons]
          omega, hC.2.2.1, hC.2.2.2⟩]
      · rw [if_neg hC, if_neg (fun hh => hC ⟨by omega, by
          have := hh.2.1
          simp only [List.length_cons] at this
          omega, hh.2.2.1, hh.2.2.2⟩)]
        unfold assignSlice
        rw [if_neg (fun hh => absurd hh.1 (by omega))]

theorem mem_pdUniqueAux {α : Type} [DecidableEq α] :
    ∀ (l seen : List α) (x : α),
      x ∈ pdUniqueAux l seen ↔ (x ∈ l ∧ x ∉ seen) := by
  intro l
  induction l with
  | nil =>
    intro seen x
    simp [pdUniqueAux]
  | cons a xs ih =>
    intro seen x
    by_cases ha : a ∈ seen
    · simp only [pdUniqueAux]
      rw [if_pos ha, ih]
      constructor
      · rintro ⟨hx, hs⟩
        exact ⟨List.mem_cons_of_mem a hx, hs⟩
      · rintro ⟨hx, hs⟩
        rcases List.mem_cons.mp hx with rfl | hx2
        · exact absurd ha hs
        · exact ⟨hx2, hs⟩
    · simp only [pdUniqueAux]
      rw [if_neg ha]
      constructor
      · intro hx
        rcases List.mem_cons.mp hx with rfl | hx2
        · exact ⟨List.mem_cons_self _ _, ha⟩
        · obtain ⟨h1, h2⟩ := (ih _ _).mp hx2
          have hxs : x ∉ seen := fun hc => h2 (List.mem_cons_of_mem a hc)
          exact ⟨List.mem_cons_of_mem a h1, hxs⟩
      · rintro ⟨hx, hs⟩
        rcases List.mem_cons.mp hx with rfl | hx2
        · exact List.mem_cons_self _ _
        · by_cases hxa : x = a
          · subst hxa
            exact List.mem_cons_self _ _
          · refine List.mem_cons_of_mem _ ((ih _ _).mpr ⟨hx2, ?_⟩)
            intro hc
            rcases List.mem_cons.mp hc with h | h
            · exact hxa h
            · exact hs h

theorem pdUniqueAux_nodup {α : Type} [DecidableEq α] :
    ∀ (l seen : List α), (pdUniqueAux l seen).Nodup := by
  intro l
  induction l with
  | nil =>
    intro seen
    simp [pdUniqueAux]
  | cons a xs ih =>
    intro seen
    by_cases ha : a ∈ seen
    · simp only [pdUniqueAux]
      rw [if_pos ha]
      exact ih seen
    · simp only [pdUniqueAux]
      rw [if_neg ha]
      refine List.Nodup.cons ?_ (ih (a :: seen))
      intro hc
      exact ((mem_pdUniqueAux xs (a :: seen) a).mp hc).2 (List.mem_cons_self a seen)

theorem mem_pdUnique {α : Type} [DecidableEq α] {l : List α} {x : α} :
    x ∈ pdUnique l ↔ x ∈ l := by
  unfold pdUnique
  rw [mem_pdUniqueAux]
  simp

theorem pdUnique_nodup {α : Type} [DecidableEq α] (l : List α) :
    (pdUnique l).Nodup :=
  pdUniqueAux_nodup l []

theorem lookup_map_pair (us : List Str) (f : Str → Nat) :
    ∀ u ∈ us, (us.map (fun v => (v, f v))).lookup u = some (f u) := by
  induction us with
  | nil => intro u hu; cases hu
  | cons v vs ih =>
    intro u hu
    by_cases h : u = v
    · subst h
      simp [List.lookup]
    · have hbeq : (u == v) = false := beq_false_of_ne h
      rcases List.mem_cons.mp hu with h2 | h2
      · exact absurd h2 h
      · simpa [List.lookup, hbeq] using ih u h2

theorem count_one_map_indicator (g : Str) :
    ∀ us : List Str,
      (us.map (fun u => if g = u then (1 : Nat) else 0)).count 1 = us.count g := by
  intro us
  induction us with
  | nil => rfl
  | cons a t ih =>
    by_cases h : g = a
    · subst h
      simp [List.count_cons, ih]
    · simp only [List.map_cons, if_neg h, List.count_cons, ih]
      have h0 : ((0 : Nat) == 1) = false := by decide
      have h1 : (a == g) = false := beq_false_of_ne (fun hh => h hh.symm)
      rw [h0, h1]

theorem indicator_row_values (g : Str) (us : List Str) :
    ∀ v ∈ us.map (fun u => if g = u then (1 : Nat) else 0), v = 1 ∨ v = 0 := by
  intro v hv
  rcases List.mem_map.mp hv with ⟨u, -, rfl⟩
  by_cases h : g = u
  · rw [if_pos h]; exact Or.inl rfl
  · rw [if_neg h]; exact Or.inr rfl

theorem bgLen_eq_ceilDiv (g : Batch_generator) (hb : 1 ≤ g.batch_size) :
    bgLen g = (g.mp3_paths.length + g.batch_size - 1) / g.batch_size := by
  unfold bgLen
  generalize g.mp3_paths.length = n
  generalize hbv : g.batch_size = b at hb
  have hb0 : 0 < b := hb
  have hbQ : (0 : ℚ) < (b : ℚ) := by exact_mod_cast hb0
  have hdm := Nat.div_add_mod (n + b - 1) b
  have hml := Nat.mod_lt (n + b - 1) hb0
  have h1 : b * ((n + b - 1) / b) < n + b := by omega
  have h2 : n ≤ b * ((n + b - 1) / b) := by omega
  have hq1 : ((n : ℚ) / (b : ℚ)) ≤ ((((n + b - 1) / b : Nat)) : ℚ) := by
    rw [div_le_iff₀ hbQ]
    calc (n : ℚ) ≤ ((b * ((n + b - 1) / b) : Nat) : ℚ) := by exact_mod_cast h2
      _ = ((((n + b - 1) / b : Nat)) : ℚ) * (b : ℚ) := by push_cast; ring
  have hq2 : ((((n + b - 1) / b : Nat)) : ℚ) - 1 < (n : ℚ) / (b : ℚ) := by
    rw [lt_div_iff₀ hbQ]
    have hc : ((((n + b - 1) / b : Nat)) : ℚ) * (b : ℚ) < (n : ℚ) + (b : ℚ) := by
      calc ((((n + b - 1) / b : Nat)) : ℚ) * (b : ℚ)
          = ((b * ((n + b - 1) / b) : Nat) : ℚ) := by push_cast; ring
        _ < (n : ℚ) + (b : ℚ) := by exact_mod_cast h1
    have hexp : (((((n + b - 1) / b : Nat)) : ℚ) - 1) * (b : ℚ)
        = ((((n + b - 1) / b : Nat)) : ℚ) * (b : ℚ) - (b : ℚ) := by ring
    rw [hexp]
    linarith
  have hceil : Int.ceil ((n : ℚ) / (b : ℚ)) = (((n + b - 1) / b : Nat) : ℤ) := by
    rw [Int.ceil_eq_iff]
    constructor
    · push_cast
      exact hq2
    · push_cast
      exact hq1
  rw [hceil, Int.toNat_ofNat]

theorem join_chunks {α : Type} (b : Nat) (hb : 1 ≤ b) :
    ∀ (k : Nat) (l : List α), (l.length + b - 1) / b = k →
      ((List.range k).map (fun i => (l.drop (i * b)).take b)).flatten = l := by
  intro k
  induction k with
  | zero =>
    intro l hk
    have hd0 : (b - 1) / b = 0 := Nat.div_eq_of_lt (by omega)
    have h0 : l.length = 0 := by
      rcases Nat.eq_zero_or_pos l.length with h | h
      · exact h
      · exfalso
        have hge : 1 ≤ (l.length + b - 1) / b :=
          (Nat.le_div_iff_mul_le (by omega)).mpr (by omega)
        omega
    rw [List.length_eq_zero.mp h0]
    rfl
  | succ k ih =>
    intro l hk
    have hb0 : 0 < b := hb
    have hlen : 1 ≤ l.length := by
      rcases Nat.eq_zero_or_pos l.length with h0 | h0
      · exfalso
        rw [h0] at hk
        simp only [Nat.zero_add] at hk
        have hd0 : (b - 1) / b = 0 := Nat.div_eq_of_lt (by omega)
        omega
      · exact h0
    have hstep : ((l.drop b).length + b - 1) / b = k := by
      rw [List.length_drop]
      by_cases hle : l.length ≤ b
      · have h0 : l.length - b = 0 := by omega
        rw [h0]
        have hk1 : (l.length + b - 1) / b = 1 := by
          have hdlt : (l.length + b - 1) / b < 2 :=
            Nat.div_lt_of_lt_mul (by omega : l.length + b - 1 < b * 2)
          have hdge : 1 ≤ (l.length + b - 1) / b :=
            (Nat.le_div_iff_mul_le hb0).mpr (by omega)
          omega
        have hkz : k = 0 := by omega
        subst hkz
        exact Nat.div_eq_of_lt (by omega)
      · have h0 : l.length - b + b - 1 = l.length - 1 := by omega
        rw [h0]
        have h1 : l.length + b - 1 = (l.length - 1) + b := by omega
        rw [h1, Nat.add_div_right _ hb0] at hk
        omega
    have hrange : List.range (k + 1) = 0 :: (List.range k).map Nat.succ :=
      List.range_succ_eq_map k
    rw [hrange, List.map_cons, List.flatten_cons, Nat.zero_mul, List.drop_zero,
      List.map_map]
    have hmap : (List.range k).map ((fun i => (l.drop (i * b)).take b) ∘ Nat.succ)
        = (List.range k).map (fun i => (((l.drop b).drop (i * b)).take b)) := by
      apply List.map_congr_left
      intro i _
      simp only [Function.comp]
      rw [List.drop_drop]
      have hmul : Nat.succ i * b = b + i * b := by
        rw [Nat.succ_mul]
        omega
      rw [hmul]
    rw [hmap, ih (l.drop b) hstep, List.take_append_drop]

/-- C1: on a non-empty file list, _stack_melspecs returns a 3-D array of
shape (number of files, maximum row count over the batch, maximum column
count over the batch); each slice restricted to the shape of the
corresponding spectrogram equals that spectrogram, and every entry outside
that region is zero. -/
theorem stack_melspecs_pads_to_max (loadFn : Str → Nat → Nat → List ℚ)
    (melFn : List ℚ → Nat → Mat) (g : Batch_generator)
    (fl : List Str) (h : fl ≠ []) :
    ∃ A, stackMelspecs loadFn melFn g fl = Except.ok A ∧
      A.dim0 = fl.length ∧
      A.dim1 = maxList ((melsOf loadFn melFn g fl).map (fun m => m.rows)) ∧
      A.dim2 = maxList ((melsOf loadFn melFn g fl).map (fun m => m.cols)) ∧
      (∀ m ∈ melsOf loadFn melFn g fl, m.rows ≤ A.dim1 ∧ m.cols ≤ A.dim2) ∧
      A.dim1 ∈ (melsOf loadFn melFn g fl).map (fun m => m.rows) ∧
      A.dim2 ∈ (melsOf loadFn melFn g fl).map (fun m => m.cols) ∧
      (∀ i, i < fl.length →
        (∀ r c, r < ((melsOf loadFn melFn g fl).getD i dMat).rows →
            c < ((melsOf loadFn melFn g fl).getD i dMat).cols →
            A.entry i r c = ((melsOf loadFn melFn g fl).getD i dMat).entry r c) ∧
        (∀ r c, ¬ (r < ((melsOf loadFn melFn g fl).getD i dMat).rows ∧
              c < ((melsOf loadFn melFn g fl).getD i dMat).cols) →
            A.entry i r c = 0)) := by
  have hmels_len : (melsOf loadFn melFn g fl).length = fl.length := by
    unfold melsOf
    rw [List.length_map, List.length_map]
  have hne : melsOf loadFn melFn g fl ≠ [] := by
    intro hc
    have : fl.length = 0 := by rw [← hmels_len, hc]; rfl
    exact h (List.length_eq_zero.mp this)
  have hempty : ¬ ((melsOf loadFn melFn g fl).isEmpty = true) := by
    rw [List.isEmpty_iff]
    exact hne
  have heq : stackMelspecs loadFn melFn g fl = Except.ok
      { dim0 := fl.length
        dim1 := maxList ((melsOf loadFn melFn g fl).map (fun m => m.rows))
        dim2 := maxList ((melsOf loadFn melFn g fl).map (fun m => m.cols))
        entry := fillFrom 0 (melsOf loadFn melFn g fl) (fun _ _ _ => 0) } := by
    unfold stackMelspecs
    rw [if_neg hempty]
  refine ⟨_, heq, rfl, rfl, rfl, ?_, ?_, ?_, ?_⟩
  · intro m hm
    exact ⟨le_maxList (List.mem_map_of_mem _ hm),
      le_maxList (List.mem_map_of_mem _ hm)⟩
  · exact maxList_mem (fun hc => hne (List.map_eq_nil_iff.mp hc))
  · exact maxList_mem (fun hc => hne (List.map_eq_nil_iff.mp hc))
  · intro i hi
    have hilen : i < (melsOf loadFn melFn g fl).length := by
      rw [hmels_len]
      exact hi
    constructor
    · intro r c hr hc
      show fillFrom 0 (melsOf loadFn melFn g fl) (fun _ _ _ => 0) i r c = _
      rw [fillFrom_eq]
      simp only [Nat.sub_zero]
      rw [if_pos ⟨Nat.zero_le i, hilen, hr, hc⟩]
    · intro r c hout
      show fillFrom 0 (melsOf loadFn melFn g fl) (fun _ _ _ => 0) i r c = 0
      rw [fillFrom_eq]
      simp only [Nat.sub_zero]
      rw [if_neg]
      rintro ⟨-, -, hr2, hc2⟩
      exact hout ⟨hr2, hc2⟩

/-- Concrete librosa stand-ins and a concrete generator used by the
witnesses. -/
def wLoad : Str → Nat → Nat → List ℚ := fun _ _ _ => [1]

def wMel : List ℚ → Nat → Mat :=
  fun _ _ => { rows := 1, cols := 2, entry := fun r c => (r : ℚ) + (c : ℚ) }

def wGen : Batch_generator :=
  { mp3_paths := ["a".toList]
    labels := [[1]]
    batch_size := 1
    sr := 22050
    duration := 5 }

/-- C1 witness: a singleton batch. -/
theorem stack_melspecs_pads_to_max_witness :
    (["a".toList] : List Str) ≠ [] ∧
    ∃ A, stackMelspecs wLoad wMel wGen ["a".toList] = Except.ok A ∧ A.dim0 = 1 := by
  refine ⟨by decide, ?_⟩
  obtain ⟨A, hA, h0, -⟩ :=
    stack_melspecs_pads_to_max wLoad wMel wGen ["a".toList] (by decide)
  exact ⟨A, hA, by rw [h0]; rfl⟩

/-- C2: __getitem__ at index idx returns exactly the stacked spectrograms
of the paths mp3_paths[idx*b : (idx+1)*b] paired with the label rows
labels[idx*b : (idx+1)*b]; elementwise, entry j of the label slice is row
idx*b + j of the labels. -/
theorem getitem_is_contiguous_slice (loadFn : Str → Nat → Nat → List ℚ)
    (melFn : List ℚ → Nat → Mat) (g : Batch_generator) (idx : Nat) :
    (bgGetitem loadFn melFn g idx).1 =
      stackMelspecs loadFn melFn g
        (listSlice g.mp3_paths (idx * g.batch_size) ((idx + 1) * g.batch_size)) ∧
    (bgGetitem loadFn melFn g idx).2 =
      listSlice g.labels (idx * g.batch_size) ((idx + 1) * g.batch_size) ∧
    ∀ j, j < g.batch_size →
      ((bgGetitem loadFn melFn g idx).2)[j]? =
        g.labels[idx * g.batch_size + j]? := by
  refine ⟨rfl, rfl, ?_⟩
  intro j hj
  show (listSlice g.labels (idx * g.batch_size) ((idx + 1) * g.batch_size))[j]? = _
  unfold listSlice
  have hjb : j < (idx + 1) * g.batch_size - idx * g.batch_size := by
    rw [Nat.succ_mul]
    omega
  rw [List.getElem?_take_of_lt hjb, List.getElem?_drop]

/-- C2 witness: the singleton generator at batch 0, entry 0. -/
theorem getitem_is_contiguous_slice_witness :
    0 < wGen.batch_size ∧
    ((bgGetitem wLoad wMel wGen 0).2)[0]? =
      wGen.labels[0 * wGen.batch_size + 0]? := by
  refine ⟨by decide, ?_⟩
  exact (getitem_is_contiguous_slice wLoad wMel wGen 0).2.2 0 (by decide)

/-- C3: with batch size b >= 1, __len__ returns the ceiling of n / b
(bgLen is np.ceil of the exact division; in Nat form (n + b - 1) / b),
and the path slices of the batches idx = 0 .. __len__() - 1 concatenate
back to the full track list. -/
theorem len_is_ceil_and_batches_partition (g : Batch_generator)
    (hb : 1 ≤ g.batch_size) :
    bgLen g = (g.mp3_paths.length + g.batch_size - 1) / g.batch_size ∧
    ((List.range (bgLen g)).map (fun idx =>
        listSlice g.mp3_paths (idx * g.batch_size)
          ((idx + 1) * g.batch_size))).flatten = g.mp3_paths := by
  have hlen := bgLen_eq_ceilDiv g hb
  refine ⟨hlen, ?_⟩
  have hslice : ∀ idx : Nat,
      listSlice g.mp3_paths (idx * g.batch_size) ((idx + 1) * g.batch_size)
        = (g.mp3_paths.drop (idx * g.batch_size)).take g.batch_size := by
    intro idx
    unfold listSlice
    congr 1
    rw [Nat.succ_mul]
    omega
  rw [List.map_congr_left (fun idx _ => hslice idx), hlen]
  exact join_chunks g.batch_size hb _ g.mp3_paths rfl

/-- C3 witness: the singleton generator. -/
theorem len_is_ceil_and_batches_partition_witness :
    1 ≤ wGen.batch_size ∧
    bgLen wGen = (wGen.mp3_paths.length + wGen.batch_size - 1) / wGen.batch_size :=
  ⟨by decide, (len_is_ceil_and_batches_partition wGen (by decide)).1⟩

/-- C10: _stack_melspecs errors on an empty file list (Python max of an
empty sequence); with batch_size >= 1, a non-empty track list, and
idx < __len__(), the slice __getitem__ passes to _stack_melspecs is
non-empty, so that error branch is unreachable and __getitem__ stacks
successfully. -/
theorem getitem_slice_nonempty (loadFn : Str → Nat → Nat → List ℚ)
    (melFn : List ℚ → Nat → Mat) (g : Batch_generator)
    (hb : 1 ≤ g.batch_size) (hne : g.mp3_paths ≠ []) (idx : Nat)
    (hidx : idx < bgLen g) :
    (∃ e, stackMelspecs loadFn melFn g [] = Except.error e) ∧
    listSlice g.mp3_paths (idx * g.batch_size) ((idx + 1) * g.batch_size) ≠ [] ∧
    ∃ A, (bgGetitem loadFn melFn g idx).1 = Except.ok A := by
  have hb0 : 0 < g.batch_size := hb
  have hlen := bgLen_eq_ceilDiv g hb
  rw [hlen] at hidx
  have hn1 : 1 ≤ g.mp3_paths.length := List.length_pos.mpr hne
  have hmul : (idx + 1) * g.batch_size ≤
      ((g.mp3_paths.length + g.batch_size - 1) / g.batch_size) * g.batch_size :=
    Nat.mul_le_mul_right _ hidx
  have hdivmul : ((g.mp3_paths.length + g.batch_size - 1) / g.batch_size)
      * g.batch_size ≤ g.mp3_paths.length + g.batch_size - 1 :=
    Nat.div_mul_le_self _ _
  have hsucc : (idx + 1) * g.batch_size = idx * g.batch_size + g.batch_size :=
    Nat.succ_mul idx g.batch_size
  have hlt : idx * g.batch_size < g.mp3_paths.length := by omega
  have hslice_len : 0 < (listSlice g.mp3_paths (idx * g.batch_size)
      ((idx + 1) * g.batch_size)).length := by
    unfold listSlice
    rw [List.length_take, List.length_drop]
    omega
  have hslice_ne : listSlice g.mp3_paths (idx * g.batch_size)
      ((idx + 1) * g.batch_size) ≠ [] := List.length_pos.mp hslice_len
  refine ⟨⟨_, rfl⟩, hslice_ne, ?_⟩
  have hmels_ne : melsOf loadFn melFn g (listSlice g.mp3_paths
      (idx * g.batch_size) ((idx + 1) * g.batch_size)) ≠ [] := by
    unfold melsOf
    intro hc
    rcases List.map_eq_nil_iff.mp hc with hc2
    exact hslice_ne (List.map_eq_nil_iff.mp hc2)
  have hempty : ¬ ((melsOf loadFn melFn g (listSlice g.mp3_paths
      (idx * g.batch_size) ((idx + 1) * g.batch_size))).isEmpty = true) := by
    rw [List.isEmpty_iff]
    exact hmels_ne
  have heq : stackMelspecs loadFn melFn g (listSlice g.mp3_paths
      (idx * g.batch_size) ((idx + 1) * g.batch_size)) = Except.ok
      { dim0 := (listSlice g.mp3_paths (idx * g.batch_size)
          ((idx + 1) * g.batch_size)).length
        dim1 := maxList ((melsOf loadFn melFn g (listSlice g.mp3_paths
          (idx * g.batch_size) ((idx + 1) * g.batch_size))).map (fun m => m.rows))
        dim2 := maxList ((melsOf loadFn melFn g (listSlice g.mp3_paths
          (idx * g.batch_size) ((idx + 1) * g.batch_size))).map (fun m => m.cols))
        entry := fillFrom 0 (melsOf loadFn melFn g (listSlice g.mp3_paths
          (idx * g.batch_size) ((idx + 1) * g.batch_size))) (fun _ _ _ => 0) } := by
    unfold stackMelspecs
    rw [if_neg hempty]
  exact ⟨_, heq⟩

/-- C10 witness: the singleton generator at batch index 0. -/
theorem getitem_slice_nonempty_witness :
    (1 ≤ wGen.batch_size ∧ wGen.mp3_paths ≠ [] ∧ 0 < bgLen wGen) ∧
    listSlice wGen.mp3_paths (0 * wGen.batch_size) ((0 + 1) * wGen.batch_size)
      ≠ [] := by
  have hlt : 0 < bgLen wGen := by
    rw [bgLen_eq_ceilDiv wGen (by decide)]
    decide
  exact ⟨⟨by decide, by decide, hlt⟩,
    (getitem_slice_nonempty wLoad wMel wGen (by decide) (by decide) 0 hlt).2.1⟩

/-- C9: the stored duration never influences __len__ or __getitem__: two
generators equal in paths, labels, batch size, and sample rate but with
different durations behave identically (the loader is called with
duration = self.sr and self.duration is never read). -/
theorem duration_never_influences_output (loadFn : Str → Nat → Nat → List ℚ)
    (melFn : List ℚ → Nat → Mat) (g1 g2 : Batch_generator)
    (hp : g1.mp3_paths = g2.mp3_paths) (hl : g1.labels = g2.labels)
    (hb : g1.batch_size = g2.batch_size) (hs : g1.sr = g2.sr)
    (hd : g1.duration ≠ g2.duration) :
    bgLen g1 = bgLen g2 ∧
    ∀ idx, bgGetitem loadFn melFn g1 idx = bgGetitem loadFn melFn g2 idx := by
  constructor
  · unfold bgLen
    rw [hp, hb]
  · intro idx
    unfold bgGetitem stackMelspecs melsOf listSlice
    rw [hp, hl, hb, hs]

/-- The singleton generator with a different duration. -/
def wGenD : Batch_generator :=
  { mp3_paths := ["a".toList]
    labels := [[1]]
    batch_size := 1
    sr := 22050
    duration := 6 }

/-- C9 witness: same data, durations 5 and 6. -/
theorem duration_never_influences_output_witness :
    wGen.duration ≠ wGenD.duration ∧ bgLen wGen = bgLen wGenD :=
  ⟨by decide,
    (duration_never_influences_output wLoad wMel wGen wGenD
      rfl rfl rfl rfl (by decide)).1⟩

theorem count_eq_one_of_nodup_mem {α : Type} [BEq α] [LawfulBEq α] :
    ∀ (l : List α) (a : α), l.Nodup → a ∈ l → l.count a = 1 := by
  intro l
  induction l with
  | nil =>
    intro a _ h
    cases h
  | cons x xs ih =>
    intro a hnd ha
    rcases List.mem_cons.mp ha with rfl | ha2
    · rw [List.count_cons_self]
      have hnot : a ∉ xs := (List.nodup_cons.mp hnd).1
      rw [List.count_eq_zero.mpr hnot]
    · have hx : a ≠ x := fun h => (List.nodup_cons.mp hnd).1 (h ▸ ha2)
      rw [List.count_cons_of_ne hx]
      exact ih a (List.nodup_cons.mp hnd).2 ha2

/-- C6: on a dataframe extended by attach_onehot_encoding, every label
row returned as the second component of __getitem__ is one-hot: exactly
one entry equals 1 and every entry is 1 or 0. -/
theorem getitem_labels_one_hot (loadFn : Str → Nat → Nat → List ℚ)
    (melFn : List ℚ → Nat → Mat) (df : List MRow) (c : Str)
    (b sr dur idx : Nat) :
    ∀ y ∈ (bgGetitem loadFn melFn
        (mkBatchGenerator (attach_onehot_encoding df c) b sr dur) idx).2,
      y.count 1 = 1 ∧ ∀ v ∈ y, v = 1 ∨ v = 0 := by
  intro y hy
  have hy2 : y ∈ bgLabels (attach_onehot_encoding df c) :=
    List.drop_subset _ _ (List.take_subset _ _ hy)
  rcases List.mem_map.mp hy2 with ⟨r, hr, hyeq⟩
  rcases List.mem_map.mp hr with ⟨mr, hmr, hreq⟩
  have hbase : (attach_onehot_encoding df c).map (fun s => s.base.genre)
      = df.map (fun s => s.genre) := by
    unfold attach_onehot_encoding
    rw [List.map_map]
    rfl
  have hgmem : mr.genre ∈ pdUnique (df.map (fun s => s.genre)) :=
    mem_pdUnique.mpr (List.mem_map_of_mem _ hmr)
  have hdum : r.dummies = (pdUnique (df.map (fun s => s.genre))).map
      (fun g => (g, if mr.genre = g then 1 else 0)) := by
    rw [← hreq]
  have hpoint : y = (pdUnique (df.map (fun s => s.genre))).map
      (fun u => if mr.genre = u then 1 else 0) := by
    rw [← hyeq, hbase, hdum]
    apply List.map_congr_left
    intro u hu
    rw [lookup_map_pair _ _ u hu]
    rfl
  constructor
  · rw [hpoint, count_one_map_indicator]
    exact count_eq_one_of_nodup_mem _ _ (pdUnique_nodup _) hgmem
  · rw [hpoint]
    exact indicator_row_values mr.genre _

/-- A one-row metadata dataframe used by the C6 witness. -/
def wDF : List MRow :=
  [{ track_id := 1, genre := "Rock".toList, mp3_path := "a.mp3".toList }]

/-- C6 witness: the single label row of the one-row dataframe. -/
theorem getitem_labels_one_hot_witness :
    ([(1 : Nat)] ∈ (bgGetitem wLoad wMel
        (mkBatchGenerator (attach_onehot_encoding wDF "genre".toList)
          1 22050 5) 0).2) ∧
    ([(1 : Nat)].count 1 = 1 ∧ ∀ v ∈ [(1 : Nat)], v = 1 ∨ v = 0) := by
  have hmem : [(1 : Nat)] ∈ (bgGetitem wLoad wMel
      (mkBatchGenerator (attach_onehot_encoding wDF "genre".toList)
        1 22050 5) 0).2 := by decide
  exact ⟨hmem, getitem_labels_one_hot wLoad wMel wDF "genre".toList
    1 22050 5 0 [1] hmem⟩
